import Mathlib

/-!
# GetStock 1.5 protocol: verification of server.py and client.py

Shallow embedding of the GetStock UDP stock-quote protocol.  Python strings
are modeled as `List Char`; Python `str.split(sep)` is `List.splitOn sep`
(identical semantics: `"".split(",") == [""]`, separators removed, empty
groups kept), `sep.join` is `List.intercalate [sep]`, `s[0:-1]` is
`List.dropLast`, `s.lower()` is `List.map Char.toLower` (core `Char.toLower`
has exactly Python's ASCII behaviour), and `s.isalnum()` is "nonempty and
all alphanumeric".  Raw datagram bytes are `List Nat`; `bytes.decode("utf-8")`
is a strict UTF-8 decoder returning `Option`.
-/

namespace GetStock

/-- String literal to the `List Char` representation used throughout. -/
def strL (s : String) : List Char := s.toList

/-- Python `s.endswith(c)` for a one-character suffix `c`. -/
def endswith (c : Char) (s : List Char) : Bool := s.getLast? == some c

/-- Python `s.lower()` (ASCII case mapping, as in `Char.toLower`). -/
def lower (s : List Char) : List Char := s.map Char.toLower

/-- Python `s.isalnum()`: `True` iff `s` is nonempty and every character is
alphanumeric (ASCII model). -/
def isalnum (s : List Char) : Bool := !s.isEmpty && s.all Char.isAlphanum

/-- A UTF-8 continuation byte. -/
def isCont (b : Nat) : Bool := decide (0x80 ≤ b ∧ b ≤ 0xBF)

/-- Strict UTF-8 decoding of a byte list into Unicode code points, modeling
Python `bytes.decode("utf-8")`: rejects stray continuation bytes, truncated
sequences, overlong encodings, surrogates and out-of-range leading bytes. -/
def utf8Decode : List Nat → Option (List Nat)
  | [] => some []
  | b :: rest =>
    if b < 0x80 then
      (utf8Decode rest).map (fun ps => b :: ps)
    else if 0xC2 ≤ b ∧ b ≤ 0xDF then
      match rest with
      | b1 :: rest1 =>
        if isCont b1 then
          (utf8Decode rest1).map (fun ps => ((b - 0xC0) * 0x40 + (b1 - 0x80)) :: ps)
        else none
      | [] => none
    else if 0xE0 ≤ b ∧ b ≤ 0xEF then
      match rest with
      | b1 :: b2 :: rest2 =>
        if isCont b1 && isCont b2 && !(b == 0xE0 && b1 < 0xA0) && !(b == 0xED && 0xA0 ≤ b1) then
          (utf8Decode rest2).map
            (fun ps => ((b - 0xE0) * 0x1000 + (b1 - 0x80) * 0x40 + (b2 - 0x80)) :: ps)
        else none
      | _ => none
    else if 0xF0 ≤ b ∧ b ≤ 0xF4 then
      match rest with
      | b1 :: b2 :: b3 :: rest3 =>
        if isCont b1 && isCont b2 && isCont b3
            && !(b == 0xF0 && b1 < 0x90) && !(b == 0xF4 && 0x8F < b1) then
          (utf8Decode rest3).map
            (fun ps => ((b - 0xF0) * 0x40000 + (b1 - 0x80) * 0x1000
              + (b2 - 0x80) * 0x40 + (b3 - 0x80)) :: ps)
        else none
      | _ => none
    else none

/-- Python `raw_data.decode("utf-8")` producing the decoded text, `none` on a
`UnicodeDecodeError`. -/
def decodeUtf8Str (bytes : List Nat) : Option (List Char) :=
  (utf8Decode bytes).map (fun ps => ps.map Char.ofNat)

/-- ASCII encoding of a text, to build concrete datagrams in examples. -/
def asciiBytes (s : List Char) : List Nat := s.map Char.toNat

namespace Server

/-- server.py `MAX_SIZE`: UDP buffer size. -/
def MAX_SIZE : Nat := 4096

/-- server.py `MAX_NAME`: upper limit on length of username. -/
def MAX_NAME : Nat := 32

/-- server.py `QUOTE_FIELDS`. -/
def QUOTE_FIELDS : Nat := 3

/-- server.py `REG_FIELDS`. -/
def REG_FIELDS : Nat := 2

/-- server.py `BAD_STOCK`: inserted into the response if a stock does not exist. -/
def BAD_STOCK : List Char := strL (r"-1")

/-- The stock dictionary, as an association list (first match wins; the Python
dict built by `loadStockDict` has unique keys). -/
def lookupDict (d : List (List Char × List Char)) (k : List Char) : Option (List Char) :=
  match d with
  | [] => none
  | (k₁, v) :: rest => if k₁ = k then some v else lookupDict rest k

/-- server.py `buildPacket(command)` without a `stock_csv` (the `else` arm):
`"{};".format(command)`. -/
def buildPacket (command : List Char) : List Char := command ++ [';']

/-- server.py `buildPacket("QUO", stock_csv)`: split the CSV, look up each name
in the dictionary (or `BAD_STOCK`), and format `"{},{};".format("ROK", price_csv)`. -/
def buildPacketQuo (stock_dict : List (List Char × List Char)) (stock_csv : List Char) :
    List Char :=
  let price_list := (stock_csv.splitOn ',').map (fun name =>
    match lookupDict stock_dict name with
    | some price => price
    | none => BAD_STOCK)
  strL (r"ROK") ++ ',' :: List.intercalate [','] price_list ++ [';']

/-- Decidable model of Python `re.match(r"^([A-Z]{2,5},)*[A-Z]{2,5}$", s)`
(server.py line 182).  The regex accepts exactly the comma-joins of nonempty
lists of 2–5 character uppercase groups; since such groups contain no comma,
this holds iff every comma-separated group of `s` is such a group (and the
group list of a nonempty split is never empty, matching "one or more"). -/
def tickerGrammar (s : List Char) : Bool :=
  (s.splitOn ',').all (fun g =>
    decide (2 ≤ g.length ∧ g.length ≤ 5 ∧ ∀ c ∈ g, 'A' ≤ c ∧ c ≤ 'Z'))

/-- One pass of the serve-loop body over the decoded text `data`
(server.py lines 130–190), returning the response packet and the updated
`reg_users` list.  Mirrors the branch structure exactly; the final `none`
corresponds to the Python leaving `send_pkt = None`, which the source treats
as a fatal path (`sys.exit`). -/
def handle (stock_dict : List (List Char × List Char)) (data : List Char)
    (reg_users : List (List Char)) : Option (List Char × List (List Char)) :=
  let recv_pkt_flds := data.splitOn ','
  if recv_pkt_flds.headI ∉ [strL (r"REG"), strL (r"UNR"), strL (r"QUO")] then
    some (buildPacket (strL (r"INC")), reg_users)
  else if recv_pkt_flds.length = REG_FIELDS
      ∧ recv_pkt_flds.headI ∈ [strL (r"REG"), strL (r"UNR")]
      ∧ endswith ';' (recv_pkt_flds.getD 1 []) then
    let given_command := recv_pkt_flds.headI
    let strip_semicolon := (recv_pkt_flds.getD 1 []).dropLast
    let given_uname := lower strip_semicolon
    if MAX_SIZE < given_uname.length ∨ ¬ isalnum given_uname then
      some (buildPacket (strL (r"INU")), reg_users)
    else if given_command = strL (r"REG") ∧ given_uname ∉ reg_users then
      some (buildPacket (strL (r"ROK")), reg_users ++ [given_uname])
    else if given_command = strL (r"REG") ∧ given_uname ∈ reg_users then
      some (buildPacket (strL (r"UAE")), reg_users)
    else if given_command = strL (r"UNR") ∧ given_uname ∉ reg_users then
      some (buildPacket (strL (r"UNR")), reg_users)
    else if given_command = strL (r"UNR") ∧ given_uname ∈ reg_users then
      some (buildPacket (strL (r"ROK")), reg_users.erase given_uname)
    else none
  else if QUOTE_FIELDS ≤ recv_pkt_flds.length ∧ recv_pkt_flds.headI = strL (r"QUO")
      ∧ endswith ';' data then
    let given_uname := lower (recv_pkt_flds.getD 1 [])
    if MAX_NAME < given_uname.length ∨ ¬ isalnum given_uname then
      some (buildPacket (strL (r"INU")), reg_users)
    else if given_uname ∉ reg_users then
      some (buildPacket (strL (r"UNR")), reg_users)
    else
      let w_semicolon := List.intercalate [','] (recv_pkt_flds.drop 2)
      let quotes_csv := w_semicolon.dropLast
      if tickerGrammar quotes_csv then
        some (buildPacketQuo stock_dict quotes_csv, reg_users)
      else
        some (buildPacket (strL (r"INP")), reg_users)
  else
    some (buildPacket (strL (r"INP")), reg_users)

/-- One iteration of the serve loop starting at `recvfrom` (server.py
lines 122–198): the `try` around `recvfrom`/`decode` catches only socket
errors, so a `UnicodeDecodeError` on invalid UTF-8 propagates uncaught;
that (and the unreachable `send_pkt is None` exit) is the `none` case. -/
def serveStep (stock_dict : List (List Char × List Char)) (bytes : List Nat)
    (reg_users : List (List Char)) : Option (List Char × List (List Char)) :=
  match decodeUtf8Str bytes with
  | none => none
  | some data => handle stock_dict data reg_users

/-- The serve loop over a finite schedule of inbound datagrams: returns the
responses sent and whether the loop was aborted by an uncaught exception
(in which case later datagrams are never served). -/
def serveLoop (stock_dict : List (List Char × List Char)) :
    List (List Nat) → List (List Char) → List (List Char) × Bool
  | [], _ => ([], false)
  | d :: ds, reg_users =>
    match serveStep stock_dict d reg_users with
    | none => ([], true)
    | some (resp, reg_users₁) =>
      let rec₁ := serveLoop stock_dict ds reg_users₁
      (resp :: rec₁.1, rec₁.2)

/-- The response code of a raw reply packet, as the client recovers it:
first comma-field of the text before the first `;`. -/
def respCode (raw : List Char) : List Char := ((raw.splitOn ';').headI.splitOn ',').headI

/-- The six defined GetStock response codes. -/
def responseCodeList : List (List Char) :=
  [strL (r"ROK"), strL (r"INC"), strL (r"INP"), strL (r"UAE"), strL (r"UNR"), strL (r"INU")]

/-- Invariant of `reg_users`: no duplicate usernames, every entry lowercase. -/
def StoreInv (users : List (List Char)) : Prop :=
  users.Nodup ∧ ∀ u ∈ users, lower u = u

instance (users : List (List Char)) : Decidable (StoreInv users) :=
  inferInstanceAs (Decidable (users.Nodup ∧ ∀ u ∈ users, lower u = u))

end Server

namespace Client

/-- client.py `ATTEMPT_LIMIT`: max number of attempts to transmit a packet. -/
def ATTEMPT_LIMIT : Nat := 3

/-- client.py `BAD_STOCK`. -/
def BAD_STOCK : List Char := strL (r"-1")

/-- client.py `COM_FIELDS`. -/
def COM_FIELDS : Nat := 1

/-- client.py `buildPacket(cmd, u_name, stocks_csv=None)` (lines 58–72),
including the Python truthiness of the debug arm: `None` and the empty
string both fall to the two-field format there. -/
def buildPacket (cmd u_name : List Char) (stocks_csv : Option (List Char)) : List Char :=
  if cmd ∈ [strL (r"REG"), strL (r"UNR")] then
    cmd ++ ',' :: u_name ++ [';']
  else if cmd = strL (r"QUO") ∧ stocks_csv.isSome then
    cmd ++ ',' :: u_name ++ ',' :: stocks_csv.getD [] ++ [';']
  else
    match stocks_csv with
    | some csv => if csv = [] then cmd ++ ',' :: u_name ++ [';']
                  else cmd ++ ',' :: u_name ++ ',' :: csv ++ [';']
    | none => cmd ++ ',' :: u_name ++ [';']

/-- The client's `response_codes` dictionary (lines 90–97); `none` models a
key miss, which in the source raises `KeyError`. -/
def response_codes (code : List Char) : Option (List Char) :=
  if code = strL (r"ROK") then some (strL (r"Request OK"))
  else if code = strL (r"INC") then some (strL (r"Invalid command"))
  else if code = strL (r"INP") then some (strL (r"Invalid parameter"))
  else if code = strL (r"UAE") then some (strL (r"Username already exists"))
  else if code = strL (r"UNR") then some (strL (r"Username not registered"))
  else if code = strL (r"INU") then some (strL (r"Invalid username"))
  else none

/-- The client's decoding of a reply (lines 153–158): text before the first
`;`, split on commas, first field the command code and the rest the fields. -/
def decodeMsg (raw : List Char) : List Char × List (List Char) :=
  let response_fields := (raw.splitOn ';').headI.splitOn ','
  (response_fields.headI, response_fields.tail)

/-- The outcome of one `recvfrom` in the retry loop. -/
inductive NetEvent where
  | timeout
  | reply (raw : List Char)
  | sockError
deriving DecidableEq

/-- How one user action ends: a rendered reply, quiet exhaustion of the retry
budget, a fatal socket error (`sys.exit`), an uncaught `KeyError` from the
`response_codes` lookup, or an uncaught `AttributeError` from
`quote_csv.split` when `quote_csv` is `None`. -/
inductive Outcome where
  | received (raw : List Char)
  | exhausted
  | fatal
  | keyError
  | attrError
deriving DecidableEq

/-- The client's handling of a decoded reply (lines 154–171): print the
table entry for the leading code (`KeyError` if absent), and if extra fields
are present build the price table from `quote_csv` (`AttributeError` if that
is `None`). -/
def handleReply (quote_csv : Option (List Char)) (raw : List Char) : Outcome :=
  let response_fields := (raw.splitOn ';').headI.splitOn ','
  if (response_codes response_fields.headI).isNone then .keyError
  else if 1 < response_fields.length then
    match quote_csv with
    | none => .attrError
    | some _ => .received raw
  else .received raw

/-- The retry loop (client.py lines 147–184) as a function of the per-attempt
network outcome `events`.  The loop guard is `attempts < ATTEMPT_LIMIT`; the
`fuel` argument is `ATTEMPT_LIMIT - attempts`, so `fuel = 0` is a failed
guard, where the loop exits quietly after having printed "timeout limit
exceeded" on the last timeout.  Returns the list of datagrams sent (one per
iteration, sent before the receive) and the outcome. -/
def retryLoop (out_pkt : List Char) (quote_csv : Option (List Char))
    (events : Nat → NetEvent) (attempts : Nat) : Nat → List (List Char) × Outcome
  | 0 => ([], .exhausted)
  | fuel + 1 =>
    match events attempts with
    | .reply raw => ([out_pkt], handleReply quote_csv raw)
    | .sockError => ([out_pkt], .fatal)
    | .timeout =>
      let rest := retryLoop out_pkt quote_csv events (attempts + 1) fuel
      (out_pkt :: rest.1, rest.2)

/-- One user action's send/retry session: `attempts = 0` at entry. -/
def session (out_pkt : List Char) (quote_csv : Option (List Char))
    (events : Nat → NetEvent) : List (List Char) × Outcome :=
  retryLoop out_pkt quote_csv events 0 ATTEMPT_LIMIT

end Client

/-! ## Generic lemmas about the string model -/

theorem toNat_ofNat_of_valid {n : Nat} (h : n.isValidChar) : (Char.ofNat n).toNat = n := by
  rw [Char.ofNat, dif_pos h]; rfl

theorem toLower_toLower (c : Char) : c.toLower.toLower = c.toLower := by
  by_cases h : c.toNat ≥ 65 ∧ c.toNat ≤ 90
  · have hv : (c.toNat + 32).isValidChar := Or.inl (by omega)
    have ht : (Char.ofNat (c.toNat + 32)).toNat = c.toNat + 32 := toNat_ofNat_of_valid hv
    simp only [Char.toLower, if_pos h, ht]
    rw [if_neg (by omega)]
  · simp only [Char.toLower, if_neg h]

theorem lower_lower (s : List Char) : lower (lower s) = lower s := by
  simp only [lower, List.map_map]
  exact List.map_congr_left (fun c _ => toLower_toLower c)

/-- Splitting a list that avoids the separator gives one group. -/
theorem splitOn_eq_single {s : List Char} {c : Char} (h : c ∉ s) : s.splitOn c = [s] :=
  List.splitOnP_eq_single _ _ (fun x hx => by simp; rintro rfl; exact h hx)

/-- Splitting peels off a leading separator-free chunk. -/
theorem splitOn_first {xs : List Char} {c : Char} (h : c ∉ xs) (as : List Char) :
    (xs ++ c :: as).splitOn c = xs :: as.splitOn c :=
  List.splitOnP_first _ _ (fun x hx => by simp; rintro rfl; exact h hx) c (by simp) as

theorem splitOn_ne_nil (c : Char) (s : List Char) : s.splitOn c ≠ [] :=
  List.splitOnP_ne_nil _ s

/-- Every character of every group of a split occurs in the original list. -/
theorem mem_of_mem_splitOn {c x : Char} {s : List Char} :
    ∀ {g : List Char}, g ∈ s.splitOn c → x ∈ g → x ∈ s := by
  induction s with
  | nil =>
    intro g hg hx
    simp only [List.splitOn_nil, List.mem_singleton] at hg
    subst hg; cases hx
  | cons a t ih =>
    intro g hg hx
    simp only [List.splitOn, List.splitOnP_cons] at hg
    by_cases hac : (a == c)
    · rw [if_pos hac] at hg
      rcases List.mem_cons.mp hg with hg | hg
      · subst hg; cases hx
      · exact List.mem_cons_of_mem a (ih hg hx)
    · rw [if_neg hac] at hg
      rcases hgs : t.splitOnP (· == c) with _ | ⟨g₁, gs⟩
      · exact absurd hgs (List.splitOnP_ne_nil _ _)
      · rw [hgs, List.modifyHead_cons] at hg
        rcases List.mem_cons.mp hg with hg | hg
        · subst hg
          rcases List.mem_cons.mp hx with hx | hx
          · rw [hx]; exact List.mem_cons_self a t
          · exact List.mem_cons_of_mem a (ih (by rw [List.splitOn, hgs]; exact List.mem_cons_self g₁ gs) hx)
        · exact List.mem_cons_of_mem a (ih (by rw [List.splitOn, hgs]; exact List.mem_cons_of_mem g₁ hg) hx)

/-- The first group of a split of `xs ++ as` where `xs` avoids the separator. -/
theorem headI_splitOn_append {xs : List Char} {c : Char} (h : c ∉ xs) (as : List Char) :
    ((xs ++ as).splitOn c).headI = xs ++ (as.splitOn c).headI := by
  induction xs with
  | nil => simp
  | cons a t ih =>
    have hac : ¬ (a == c) = true := by simp; rintro rfl; exact h (List.mem_cons_self a t)
    rw [List.cons_append, List.splitOn, List.splitOnP_cons, if_neg hac]
    have ih' := ih (fun hx => h (List.mem_cons_of_mem a hx))
    rcases hgs : (t ++ as).splitOnP (· == c) with _ | ⟨g₁, gs⟩
    · exact absurd hgs (List.splitOnP_ne_nil _ _)
    · rw [List.splitOn, hgs] at ih'
      rw [List.modifyHead_cons]
      simp only [List.headI] at ih' ⊢
      rw [ih', List.cons_append]

/-- A list ending in `c` satisfies `endswith c`. -/
theorem endswith_concat (c : Char) (s : List Char) : endswith c (s ++ [c]) = true := by
  simp [endswith, List.getLast?_concat]

theorem mem_of_endswith {c : Char} {s : List Char} (h : endswith c s = true) : c ∈ s := by
  simp only [endswith, beq_iff_eq] at h
  exact List.mem_of_getLast?_eq_some h

/-- An alphanumeric string contains no separator characters. -/
theorem not_mem_of_isalnum {u : List Char} (h : isalnum u = true) {c : Char}
    (hc : c.isAlphanum = false) : c ∉ u := by
  intro hm
  simp only [isalnum, Bool.and_eq_true, List.all_eq_true] at h
  have := h.2 c hm
  rw [hc] at this
  cases this

theorem isalnum_ne_nil {u : List Char} (h : isalnum u = true) : u ≠ [] := by
  simp only [isalnum, Bool.and_eq_true] at h
  simpa using h.1

/-! ## Handler-level lemmas -/

theorem respCode_quote (xs : List Char) (h1 : ';' ∉ xs) (h2 : ',' ∉ xs) (body : List Char) :
    Server.respCode (xs ++ ',' :: body) = xs := by
  have hx : ';' ∉ xs ++ [','] := by
    intro hm
    rcases List.mem_append.mp hm with hm | hm
    · exact h1 hm
    · simp at hm
  have hh : ((xs ++ ',' :: body).splitOn ';').headI
      = (xs ++ [',']) ++ (body.splitOn ';').headI := by
    have := headI_splitOn_append hx body
    simpa [List.append_assoc] using this
  rw [Server.respCode, hh, List.append_assoc, List.singleton_append, splitOn_first h2]
  simp

theorem respCode_buildPacketQuo (d : List (List Char × List Char)) (csv : List Char) :
    Server.respCode (Server.buildPacketQuo d csv) = strL (r"ROK") := by
  simp only [Server.buildPacketQuo]
  exact respCode_quote (strL (r"ROK")) (by decide) (by decide) _

theorem handle_isSome_code (d : List (List Char × List Char)) (data : List Char)
    (users : List (List Char)) :
    ∃ resp users₁, Server.handle d data users = some (resp, users₁)
      ∧ Server.respCode resp ∈ Server.responseCodeList := by
  simp only [Server.handle]
  split_ifs with h₁ h₂ h₃ h₄ h₅ h₆ h₇ h₈ h₉ h₁₀ h₁₁
  all_goals first
    | exact ⟨_, _, rfl, by decide⟩
    | exact ⟨_, _, rfl, by rw [respCode_buildPacketQuo]; decide⟩
    | (exfalso
       obtain ⟨hlen, hmem, hend⟩ := h₂
       simp only [List.mem_cons, List.not_mem_nil, or_false] at hmem
       by_cases huse :
         lower ((data.splitOn ',').getD 1 []).dropLast ∈ users
       · rcases hmem with hm | hm <;> tauto
       · rcases hmem with hm | hm <;> tauto)

theorem handle_preserves_inv {d : List (List Char × List Char)} {data : List Char}
    {users : List (List Char)} {resp : List Char} {users₁ : List (List Char)}
    (hinv : Server.StoreInv users)
    (h : Server.handle d data users = some (resp, users₁)) : Server.StoreInv users₁ := by
  have hkeep : ∀ {r : List Char}, some (r, users) = some (resp, users₁) →
      Server.StoreInv users₁ := by
    intro r hr
    simp only [Option.some.injEq, Prod.mk.injEq] at hr
    exact hr.2 ▸ hinv
  simp only [Server.handle] at h
  split_ifs at h with h₁ h₂ h₃ h₄ h₅ h₆ h₇ h₈ h₉ h₁₀ h₁₁
  · exact hkeep h
  · -- REG inserts the (lowercased) username, absent by the branch guard
    simp only [Option.some.injEq, Prod.mk.injEq] at h
    obtain ⟨-, rfl⟩ := h
    refine ⟨?_, ?_⟩
    · refine List.Nodup.append hinv.1 (List.nodup_singleton _) ?_
      rw [List.disjoint_singleton]
      exact h₄.2
    · intro v hv
      rcases List.mem_append.mp hv with hv | hv
      · exact hinv.2 v hv
      · rw [List.mem_singleton] at hv
        rw [hv]
        exact lower_lower _
  · exact hkeep h
  · exact hkeep h
  · -- UNR removes the username
    simp only [Option.some.injEq, Prod.mk.injEq] at h
    obtain ⟨-, rfl⟩ := h
    exact ⟨hinv.1.erase _, fun v hv => hinv.2 v (List.mem_of_mem_erase hv)⟩
  · exact hkeep h
  · exact hkeep h
  · exact hkeep h
  · exact hkeep h
  · exact hkeep h
  · exact hkeep h

/-- Any datagram whose first comma-field is `QUO` leaves `reg_users` unchanged. -/
theorem handle_quo_users {d : List (List Char × List Char)} {data : List Char}
    {users : List (List Char)} (hq : (data.splitOn ',').headI = strL (r"QUO")) :
    ∃ resp, Server.handle d data users = some (resp, users) := by
  simp only [Server.handle, hq]
  rw [if_neg (by decide)]
  rw [if_neg (fun hc => absurd hc.2.1 (by decide))]
  split_ifs with h₁ h₂ h₃ h₄ <;> exact ⟨_, rfl⟩

theorem retryLoop_zero (p : List Char) (q : Option (List Char)) (e : Nat → Client.NetEvent)
    (a : Nat) : Client.retryLoop p q e a 0 = ([], Client.Outcome.exhausted) := rfl

theorem retryLoop_timeout (p : List Char) (q : Option (List Char)) (e : Nat → Client.NetEvent)
    (a n : Nat) (h : e a = Client.NetEvent.timeout) :
    Client.retryLoop p q e a (n + 1) =
      (p :: (Client.retryLoop p q e (a + 1) n).1, (Client.retryLoop p q e (a + 1) n).2) := by
  simp only [Client.retryLoop, h]

/-! ## Claim theorems -/

/-- Claim C1, counterexample: the claim "every inbound datagram produces
exactly one response and never aborts the serve loop" fails at the concrete
non-UTF-8 datagram `[0xFF]`: `raw_data.decode("utf-8")` raises an uncaught
`UnicodeDecodeError` (the surrounding `try` catches only socket errors), so
no response is produced and the following well-formed datagram is never
served. -/
theorem claim_C1_counterexample :
    Server.serveLoop [] [[255], asciiBytes (strL (r"REG,alice;"))] [] = ([], true) := by
  decide

/-- Claim C1, amended: for every schedule of inbound datagrams whose bytes
decode as UTF-8, the serve loop never aborts, produces exactly one response
per datagram, and every response carries one of the six defined response
codes. -/
theorem claim_C1_one_response_per_decodable_datagram
    (d : List (List Char × List Char)) (datagrams : List (List Nat))
    (users : List (List Char)) (hutf : ∀ b ∈ datagrams, (decodeUtf8Str b).isSome) :
    (Server.serveLoop d datagrams users).2 = false ∧
    (Server.serveLoop d datagrams users).1.length = datagrams.length ∧
    ∀ resp ∈ (Server.serveLoop d datagrams users).1,
      Server.respCode resp ∈ Server.responseCodeList := by
  induction datagrams generalizing users with
  | nil => exact ⟨rfl, rfl, by simp [Server.serveLoop]⟩
  | cons b bs ih =>
    obtain ⟨data, hdata⟩ := Option.isSome_iff_exists.mp (hutf b (List.mem_cons_self b bs))
    obtain ⟨resp, users₁, hh, hcode⟩ := handle_isSome_code d data users
    have hstep : Server.serveStep d b users = some (resp, users₁) := by
      rw [Server.serveStep, hdata]
      exact hh
    have ih' := ih users₁ (fun x hx => hutf x (List.mem_cons_of_mem b hx))
    simp only [Server.serveLoop, hstep]
    refine ⟨ih'.1, ?_, ?_⟩
    · simpa using ih'.2.1
    · intro r hr
      rcases List.mem_cons.mp hr with hr | hr
      · rw [hr]; exact hcode
      · exact ih'.2.2 r hr

theorem claim_C1_witness :
    (Server.serveLoop [] [asciiBytes (strL (r"REG,alice;"))] []).2 = false ∧
    (Server.serveLoop [] [asciiBytes (strL (r"REG,alice;"))] []).1.length
      = [asciiBytes (strL (r"REG,alice;"))].length ∧
    ∀ resp ∈ (Server.serveLoop [] [asciiBytes (strL (r"REG,alice;"))] []).1,
      Server.respCode resp ∈ Server.responseCodeList :=
  claim_C1_one_response_per_decodable_datagram [] [asciiBytes (strL (r"REG,alice;"))] []
    (by decide)

/-- Claim C2 (code bug): a `REG` request with a 33-character alphanumeric
username is accepted and registered with `ROK` — not rejected with `INU` —
because server.py line 146 compares the name length against `MAX_SIZE`
(4096, the UDP buffer size) instead of `MAX_NAME` (32, the documented
username bound used in the `QUO` path). -/
theorem claim_C2_overlong_username_registered :
    Server.handle [] (strL (r"REG,aaaaaaaaaaaaaaaaaaaaaaaaaaaaaaaaa;")) []
      = some (strL (r"ROK;"), [strL (r"aaaaaaaaaaaaaaaaaaaaaaaaaaaaaaaaa")]) ∧
    Server.MAX_NAME < (strL (r"aaaaaaaaaaaaaaaaaaaaaaaaaaaaaaaaa")).length := by
  decide

/-- Claim C3, counterexample: the datagram `REG` contains no `;`, yet the
server answers `INP`, not `INC` — the leading command token does matter,
because the dispatch checks only the first comma-field against the command
list and the fall-through branch answers `INP`. -/
theorem claim_C3_counterexample :
    Server.handle [] (strL (r"REG")) [] = some (strL (r"INP;"), []) ∧
    strL (r"INP;") ≠ strL (r"INC;") := by
  decide

/-- Claim C6: if the reply to every attempt times out, the client sends the
identical request exactly `ATTEMPT_LIMIT = 3` times, reports exhaustion
quietly (no exception), and never sends a 4th attempt. -/
theorem claim_C6_retry_exhaustion (out_pkt : List Char) (quote_csv : Option (List Char))
    (events : Nat → Client.NetEvent)
    (h0 : events 0 = Client.NetEvent.timeout) (h1 : events 1 = Client.NetEvent.timeout)
    (h2 : events 2 = Client.NetEvent.timeout) :
    Client.session out_pkt quote_csv events
      = ([out_pkt, out_pkt, out_pkt], Client.Outcome.exhausted) := by
  have s3 := retryLoop_timeout out_pkt quote_csv events 0 2 h0
  have s2 := retryLoop_timeout out_pkt quote_csv events 1 1 h1
  have s1 := retryLoop_timeout out_pkt quote_csv events 2 0 h2
  simp only [Nat.reduceAdd, Nat.zero_add] at s3 s2 s1
  simp [Client.session, Client.ATTEMPT_LIMIT, s3, s2, s1, retryLoop_zero]

theorem claim_C6_witness :
    Client.session (strL (r"QUO,alice,IBM;")) (some (strL (r"IBM"))) (fun _ => Client.NetEvent.timeout)
      = ([strL (r"QUO,alice,IBM;"), strL (r"QUO,alice,IBM;"), strL (r"QUO,alice,IBM;")],
         Client.Outcome.exhausted) :=
  claim_C6_retry_exhaustion _ _ _ rfl rfl rfl

/-- Claim C8: handling any datagram whose first comma-field is `QUO` leaves
the registration store unchanged (and the catalog is a read-only parameter),
so replaying the identical request bytes against the same store and catalog
runs `handle` — a pure function — on identical arguments and yields the
identical response. -/
theorem claim_C8_quo_frame (d : List (List Char × List Char)) (data : List Char)
    (users : List (List Char)) (hq : (data.splitOn ',').headI = strL (r"QUO")) :
    ∃ resp, Server.handle d data users = some (resp, users) ∧
      Server.handle d data users = some (resp, users) := by
  obtain ⟨resp, hresp⟩ := handle_quo_users hq
  exact ⟨resp, hresp, hresp⟩

theorem claim_C8_witness :
    ∃ resp, Server.handle [] (strL (r"QUO,alice,IBM;")) [strL (r"alice")]
        = some (resp, [strL (r"alice")]) ∧
      Server.handle [] (strL (r"QUO,alice,IBM;")) [strL (r"alice")]
        = some (resp, [strL (r"alice")]) :=
  claim_C8_quo_frame [] (strL (r"QUO,alice,IBM;")) [strL (r"alice")] (by decide)

/-- Claim C9: the registered-users invariant — no duplicates, all lowercase —
holds of the empty initial store and is preserved by the handling of every
inbound datagram (`REG` appends only a name that is absent, `UNR` only
removes, `QUO` and all error branches leave the store unchanged). -/
theorem claim_C9_store_invariant :
    Server.StoreInv [] ∧
    ∀ (d : List (List Char × List Char)) (data : List Char) (users : List (List Char))
      (resp : List Char) (users₁ : List (List Char)),
      Server.StoreInv users → Server.handle d data users = some (resp, users₁) →
      Server.StoreInv users₁ :=
  ⟨⟨List.nodup_nil, by simp⟩,
   fun _ _ _ _ _ hinv h => handle_preserves_inv hinv h⟩

theorem claim_C9_witness : Server.StoreInv [strL (r"bob")] :=
  claim_C9_store_invariant.2 [] (strL (r"REG,Bob;")) [] (strL (r"ROK;")) [strL (r"bob")]
    (by decide) (by decide)

/-- Claim C10: a decodable reply whose leading field is not one of the six
known response codes — here the bytes `XYZ;` — makes the client raise an
uncaught `KeyError` on the `response_codes` lookup instead of rendering a
message, retrying, or ignoring the reply: the session ends in `keyError`
after a single send. -/
theorem claim_C10_unknown_code_keyerror :
    Client.session (strL (r"REG,alice;")) none
        (fun _ => Client.NetEvent.reply (strL (r"XYZ;")))
      = ([strL (r"REG,alice;")], Client.Outcome.keyError) ∧
    Client.response_codes (strL (r"XYZ")) = none := by
  decide

/-- Evaluation of `handle` on a well-formed `REG,u;` datagram with a valid
lowercase username: `ROK` and append when absent, `UAE` and no change when
present. -/
theorem handle_reg_eval (d : List (List Char × List Char)) (u : List Char)
    (regs : List (List Char))
    (halnum : isalnum u = true) (hlen : u.length ≤ Server.MAX_NAME)
    (hlower : lower u = u) :
    Server.handle d (strL (r"REG") ++ ',' :: u ++ [';']) regs
      = if u ∉ regs then some (strL (r"ROK;"), regs ++ [u])
        else some (strL (r"UAE;"), regs) := by
  have hcomma : ',' ∉ u := not_mem_of_isalnum halnum (by decide)
  have hsplit : List.splitOn ',' (strL (r"REG") ++ ',' :: (u ++ [';']))
      = [strL (r"REG"), u ++ [';']] := by
    rw [splitOn_first (by decide)]
    rw [splitOn_eq_single (by
      intro hm
      rcases List.mem_append.mp hm with hm | hm
      · exact hcomma hm
      · simp at hm)]
  have hsize : ¬ (Server.MAX_SIZE < u.length) := by
    have : Server.MAX_NAME ≤ Server.MAX_SIZE := by decide
    omega
  simp only [List.cons_append, List.append_assoc] at *
  simp only [Server.handle, hsplit, List.headI, List.getD_cons_succ, List.getD_cons_zero,
    List.length_cons, List.length_nil, List.dropLast_concat, endswith_concat, hlower,
    Server.REG_FIELDS, halnum]
  simp +decide only [not_true, or_false, true_and, and_true, if_true, if_false]
  rw [if_neg hsize]
  split_ifs with hm1
  · rfl
  · rfl

/-- Claim C5: for a valid (nonempty alphanumeric, at most 32 chars, lowercase)
username `u` and any store from which `u` is absent, `REG,u;` yields `ROK`
and appends `u`; the immediately repeated identical request yields `UAE` and
leaves the store unchanged. -/
theorem claim_C5_register_twice (d : List (List Char × List Char))
    (users : List (List Char)) (u : List Char)
    (halnum : isalnum u = true) (hlen : u.length ≤ Server.MAX_NAME)
    (hlower : lower u = u) (habsent : u ∉ users) :
    Server.handle d (strL (r"REG") ++ ',' :: u ++ [';']) users
      = some (strL (r"ROK;"), users ++ [u]) ∧
    Server.handle d (strL (r"REG") ++ ',' :: u ++ [';']) (users ++ [u])
      = some (strL (r"UAE;"), users ++ [u]) := by
  constructor
  · rw [handle_reg_eval d u users halnum hlen hlower, if_pos habsent]
  · rw [handle_reg_eval d u (users ++ [u]) halnum hlen hlower,
      if_neg (by simp)]

theorem claim_C5_witness :
    Server.handle [] (strL (r"REG") ++ ',' :: strL (r"alice") ++ [';']) []
      = some (strL (r"ROK;"), [] ++ [strL (r"alice")]) ∧
    Server.handle [] (strL (r"REG") ++ ',' :: strL (r"alice") ++ [';'])
        ([] ++ [strL (r"alice")])
      = some (strL (r"UAE;"), [] ++ [strL (r"alice")]) :=
  claim_C5_register_twice [] [] (strL (r"alice")) (by decide) (by decide) (by decide)
    (by decide)

/-- Claim C3, amended: for a datagram with no `;` anywhere, the server
responds `INC` exactly when the first comma-field is not one of REG/UNR/QUO,
and `INP` when it is one of them; the store is unchanged either way.  (The
server has no semicolon-based decode step: dispatch looks only at the first
comma-field, and the three command branches all require a `;` somewhere, so
they fall through to the `INP` default.) -/
theorem claim_C3_no_separator_response (d : List (List Char × List Char))
    (data : List Char) (users : List (List Char)) (hs : ';' ∉ data) :
    Server.handle d data users =
      some ((if (data.splitOn ',').headI ∈ [strL (r"REG"), strL (r"UNR"), strL (r"QUO")]
             then strL (r"INP;") else strL (r"INC;")), users) := by
  have hreg : ¬ ((data.splitOn ',').length = Server.REG_FIELDS
      ∧ (data.splitOn ',').headI ∈ [strL (r"REG"), strL (r"UNR")]
      ∧ endswith ';' ((data.splitOn ',').getD 1 []) = true) := by
    rintro ⟨hlen, -, hend⟩
    have hlt : 1 < (data.splitOn ',').length := by rw [hlen]; decide
    have hmem : (data.splitOn ',').getD 1 [] ∈ data.splitOn ',' := by
      rw [List.getD_eq_getElem?_getD, List.getElem?_eq_getElem hlt]
      simp only [Option.getD_some]
      exact List.getElem_mem hlt
    exact hs (mem_of_mem_splitOn hmem (mem_of_endswith hend))
  have hquo : ¬ (Server.QUOTE_FIELDS ≤ (data.splitOn ',').length
      ∧ (data.splitOn ',').headI = strL (r"QUO") ∧ endswith ';' data = true) := by
    rintro ⟨-, -, hend⟩
    exact hs (mem_of_endswith hend)
  by_cases hmem : (data.splitOn ',').headI ∈ [strL (r"REG"), strL (r"UNR"), strL (r"QUO")]
  · rw [if_pos hmem]
    simp only [Server.handle]
    rw [if_neg (not_not_intro hmem), if_neg hreg, if_neg hquo]
    rfl
  · rw [if_neg hmem]
    simp only [Server.handle]
    rw [if_pos hmem]
    rfl

theorem claim_C3_witness :
    Server.handle [] (strL (r"XYZ")) [] =
      some ((if ((strL (r"XYZ")).splitOn ',').headI
                ∈ [strL (r"REG"), strL (r"UNR"), strL (r"QUO")]
             then strL (r"INP;") else strL (r"INC;")), []) :=
  claim_C3_no_separator_response [] (strL (r"XYZ")) [] (by decide)

/-- Claim C4: an accepted `QUO` request (registered valid username) whose
ticker CSV matches the grammar gets `ROK` followed by the prices of the
requested tickers in order, `-1` for catalog misses, one price per ticker. -/
theorem claim_C4_quo_price_alignment (d : List (List Char × List Char))
    (users : List (List Char)) (uname : List Char) (tickers : List (List Char))
    (halnum : isalnum uname = true) (hlen : uname.length ≤ Server.MAX_NAME)
    (hlower : lower uname = uname) (hreg : uname ∈ users)
    (htick : ∀ t ∈ tickers, 2 ≤ t.length ∧ t.length ≤ 5 ∧ ∀ c ∈ t, 'A' ≤ c ∧ c ≤ 'Z')
    (hne : tickers ≠ []) :
    Server.handle d
        (strL (r"QUO") ++ ',' :: uname ++ ',' :: List.intercalate [','] tickers ++ [';'])
        users
      = some (strL (r"ROK") ++ ',' ::
          List.intercalate [','] (tickers.map (fun name =>
            match Server.lookupDict d name with
            | some price => price
            | none => Server.BAD_STOCK)) ++ [';'], users) ∧
    (tickers.map (fun name =>
      match Server.lookupDict d name with
      | some price => price
      | none => Server.BAD_STOCK)).length = tickers.length := by
  have hcommaU : ',' ∉ uname := not_mem_of_isalnum halnum (by decide)
  have hcommaT : ∀ t ∈ tickers, ',' ∉ t := by
    intro t ht hm
    exact absurd ((htick t ht).2.2 ',' hm).1 (by decide)
  have hsplitT : (List.intercalate [','] tickers).splitOn ',' = tickers :=
    List.splitOn_intercalate tickers ',' hcommaT hne
  have hjoin : List.intercalate [',']
        ((List.intercalate [','] tickers ++ [';']).splitOn ',')
      = List.intercalate [','] tickers ++ [';'] :=
    List.intercalate_splitOn (List.intercalate [','] tickers ++ [';']) ','
  have htsne : (List.intercalate [','] tickers ++ [';']).splitOn ',' ≠ [] :=
    splitOn_ne_nil ',' _
  have hsplit : List.splitOn ','
      (strL (r"QUO") ++ ',' :: (uname ++ ',' :: (List.intercalate [','] tickers ++ [';'])))
      = strL (r"QUO") :: uname ::
          (List.intercalate [','] tickers ++ [';']).splitOn ',' := by
    rw [splitOn_first (by decide), splitOn_first hcommaU]
  have hend : endswith ';'
      (strL (r"QUO") ++ ',' :: (uname ++ ',' :: (List.intercalate [','] tickers ++ [';'])))
      = true := by
    rw [show strL (r"QUO") ++ ',' :: (uname ++ ',' :: (List.intercalate [','] tickers ++ [';']))
        = (strL (r"QUO") ++ ',' :: uname ++ ',' :: List.intercalate [','] tickers) ++ [';']
      from by simp [List.cons_append, List.append_assoc]]
    exact endswith_concat ';' _
  have hgram : Server.tickerGrammar (List.intercalate [','] tickers) = true := by
    rw [Server.tickerGrammar, hsplitT, List.all_eq_true]
    intro t ht
    rw [decide_eq_true_iff]
    exact htick t ht
  have hglen : Server.QUOTE_FIELDS ≤
      ((List.intercalate [','] tickers ++ [';']).splitOn ',').length + 1 + 1 := by
    have := List.length_pos.mpr htsne
    rw [Server.QUOTE_FIELDS]
    omega
  constructor
  · simp only [List.cons_append, List.append_assoc] at *
    simp only [Server.handle, hsplit, List.headI, List.getD_cons_succ, List.getD_cons_zero,
      List.length_cons, hlower, halnum, hend, List.drop_succ_cons, List.drop_zero]
    simp +decide only [not_true, or_false, true_and, and_true, if_true, if_false]
    simp only [false_and, and_false, if_false]
    rw [hjoin, List.dropLast_concat]
    rw [if_pos hglen, if_neg (Nat.not_lt.mpr hlen), if_neg (not_not_intro hreg), if_pos hgram]
    simp only [Server.buildPacketQuo, hsplitT]
    rfl
  · exact List.length_map tickers _

theorem claim_C4_witness :
    Server.handle [(strL (r"IBM"), strL (r"121.11"))]
        (strL (r"QUO") ++ ',' :: strL (r"alice") ++ ','
          :: List.intercalate [','] [strL (r"IBM"), strL (r"FB")] ++ [';'])
        [strL (r"alice")]
      = some (strL (r"ROK") ++ ',' ::
          List.intercalate [','] ([strL (r"IBM"), strL (r"FB")].map (fun name =>
            match Server.lookupDict [(strL (r"IBM"), strL (r"121.11"))] name with
            | some price => price
            | none => Server.BAD_STOCK)) ++ [';'], [strL (r"alice")]) ∧
    ([strL (r"IBM"), strL (r"FB")].map (fun name =>
      match Server.lookupDict [(strL (r"IBM"), strL (r"121.11"))] name with
      | some price => price
      | none => Server.BAD_STOCK)).length = [strL (r"IBM"), strL (r"FB")].length :=
  claim_C4_quo_price_alignment [(strL (r"IBM"), strL (r"121.11"))] [strL (r"alice")]
    (strL (r"alice")) [strL (r"IBM"), strL (r"FB")]
    (by decide) (by decide) (by decide) (by decide) (by decide) (by decide)

theorem not_mem_append_of {c : Char} {a b : List Char} (ha : c ∉ a) (hb : c ∉ b) :
    c ∉ a ++ b := by
  intro hm
  rcases List.mem_append.mp hm with hm | hm
  · exact ha hm
  · exact hb hm

theorem not_mem_cons_of {c d : Char} {l : List Char} (hcd : c ≠ d) (hl : c ∉ l) :
    c ∉ d :: l := by
  intro hm
  rcases List.mem_cons.mp hm with hm | hm
  · exact hcd hm
  · exact hl hm

/-- Claim C7, counterexample: the claim fails on the client's encoder as
stated — `buildPacket("REG", "alice", "IBM")` drops the third field (the
REG/UNR arm formats only command and username), so decoding its encoding
recovers `(REG, [alice])`, not `(REG, [alice, IBM])`. -/
theorem claim_C7_counterexample :
    Client.decodeMsg (Client.buildPacket (strL (r"REG")) (strL (r"alice"))
        (some (strL (r"IBM"))))
      = (strL (r"REG"), [strL (r"alice")]) ∧
    Client.decodeMsg (Client.buildPacket (strL (r"REG")) (strL (r"alice"))
        (some (strL (r"IBM"))))
      ≠ (strL (r"REG"), [strL (r"alice"), strL (r"IBM")]) := by
  decide

/-- Claim C7, amended: for fields free of `,` and `;`, decoding the encoding
recovers the original command and field list whenever `buildPacket` actually
emits all its arguments: always for a single field, and for two fields when
the command is not `REG`/`UNR` (whose arm drops the csv) and the second
field is nonempty (Python truthiness sends the empty csv to the two-field
format). -/
theorem claim_C7_roundtrip (cmd u_name csv : List Char)
    (hc1 : ',' ∉ cmd) (hc2 : ';' ∉ cmd)
    (hu1 : ',' ∉ u_name) (hu2 : ';' ∉ u_name)
    (hv1 : ',' ∉ csv) (hv2 : ';' ∉ csv) :
    Client.decodeMsg (Client.buildPacket cmd u_name none) = (cmd, [u_name]) ∧
    (cmd ≠ strL (r"REG") → cmd ≠ strL (r"UNR") → csv ≠ [] →
      Client.decodeMsg (Client.buildPacket cmd u_name (some csv))
        = (cmd, [u_name, csv])) := by
  have htwo : ∀ s : List Char, ',' ∉ s → ';' ∉ s →
      Client.decodeMsg (cmd ++ ',' :: s ++ [';']) = (cmd, [s]) := by
    intro s hs1 hs2
    have hns : ';' ∉ cmd ++ ',' :: s :=
      not_mem_append_of hc2 (not_mem_cons_of (by decide) hs2)
    have h1 : List.splitOn ';' ((cmd ++ ',' :: s) ++ [';'])
        = (cmd ++ ',' :: s) :: List.splitOn ';' [] := splitOn_first hns []
    rw [Client.decodeMsg]
    rw [show cmd ++ ',' :: s ++ [';'] = (cmd ++ ',' :: s) ++ [';'] from by
      simp [List.cons_append, List.append_assoc]]
    rw [h1]
    simp only [List.headI]
    rw [splitOn_first hc1, splitOn_eq_single hs1]
    rfl
  have hthree : Client.decodeMsg (cmd ++ ',' :: u_name ++ ',' :: csv ++ [';'])
      = (cmd, [u_name, csv]) := by
    have hns : ';' ∉ cmd ++ ',' :: u_name ++ ',' :: csv :=
      not_mem_append_of (not_mem_append_of hc2 (not_mem_cons_of (by decide) hu2))
        (not_mem_cons_of (by decide) hv2)
    have h1 : List.splitOn ';' ((cmd ++ ',' :: u_name ++ ',' :: csv) ++ [';'])
        = (cmd ++ ',' :: u_name ++ ',' :: csv) :: List.splitOn ';' [] :=
      splitOn_first hns []
    rw [Client.decodeMsg]
    rw [show cmd ++ ',' :: u_name ++ ',' :: csv ++ [';']
        = (cmd ++ ',' :: u_name ++ ',' :: csv) ++ [';'] from by
      simp [List.cons_append, List.append_assoc]]
    rw [h1]
    simp only [List.headI]
    rw [show cmd ++ ',' :: u_name ++ ',' :: csv = cmd ++ ',' :: (u_name ++ ',' :: csv) from by
      simp [List.cons_append, List.append_assoc]]
    rw [splitOn_first hc1, splitOn_first hu1, splitOn_eq_single hv1]
    rfl
  constructor
  · rw [Client.buildPacket]
    split_ifs with h1 h2
    · exact htwo u_name hu1 hu2
    · exact absurd h2.2 (by simp)
    · exact htwo u_name hu1 hu2
  · intro hr hu hne
    rw [Client.buildPacket]
    rw [if_neg (by
      rintro hmem
      rcases List.mem_cons.mp hmem with hm | hm
      · exact hr hm
      · rcases List.mem_cons.mp hm with hm | hm
        · exact hu hm
        · cases hm)]
    by_cases hq : cmd = strL (r"QUO")
    · rw [if_pos ⟨hq, rfl⟩]
      exact hthree
    · rw [if_neg (fun hc => hq hc.1)]
      rw [if_neg (by simpa using hne)]
      exact hthree

theorem claim_C7_witness :
    Client.decodeMsg (Client.buildPacket (strL (r"QUO")) (strL (r"alice")) none)
      = (strL (r"QUO"), [strL (r"alice")]) ∧
    Client.decodeMsg (Client.buildPacket (strL (r"QUO")) (strL (r"alice"))
        (some (strL (r"IBM"))))
      = (strL (r"QUO"), [strL (r"alice"), strL (r"IBM")]) := by
  have h := claim_C7_roundtrip (strL (r"QUO")) (strL (r"alice")) (strL (r"IBM"))
    (by decide) (by decide) (by decide) (by decide) (by decide) (by decide)
  exact ⟨h.1, h.2 (by decide) (by decide) (by decide)⟩

end GetStock
